import Mathlib

/-!
Verification of a YATA-style sequence CRDT (block store, integration
algorithm, update/delete encoding) against its natural-language
specification.  The definitions below are a shallow embedding of the
Rust sources (`block.rs`, `store.rs`, `document.rs`, `delete_set.rs`,
`update.rs`): `HashMap` is modelled as an association list, mutation as
explicit state passing, iterator traversal as a fuelled function, and
panics (out-of-bounds indexing, divergence) as `Option.none`.
-/

set_option maxRecDepth 4000

namespace Yata

/-- ClientId and Clock are u64 in the source; modelled as Nat (the
operations only compare, add and index with them, never overflow). -/
abbrev ClientId := Nat

abbrev Clock := Nat

/-- BlockId is the pair (client_id, clock), `document.rs`. -/
structure BlockId where
  client_id : ClientId
  clock : Clock
deriving DecidableEq, Repr

/-- Block, from `block.rs`: payload, origin pointers (immutable), current
list links, length and tombstone bit. -/
structure Block (T : Type) where
  id : Clock
  origin_left : Option BlockId
  left : Option BlockId
  origin_right : Option BlockId
  right : Option BlockId
  value : List T
  length : Nat
  deleted : Bool
deriving DecidableEq, Repr

/-- Block::delete, `block.rs` lines 42-48: set the tombstone and drop the
payload, first time only; length is untouched. -/
def Block.delete {T : Type} (b : Block T) : Block T :=
  if b.deleted then b else { b with deleted := true, value := [] }

/-- Block::with_value_and_right, `block.rs` lines 64-80. -/
def Block.with_value_and_right {T : Type} (id : Clock) (left right : Option BlockId)
    (value : T) : Block T :=
  { id := id, origin_left := left, left := left, origin_right := right,
    right := right, value := [value], length := 1, deleted := false }

/-- Association-list lookup used to model `HashMap<ClientId, _>`. -/
def assocGet {β : Type} : List (ClientId × β) → ClientId → Option β
  | [], _ => none
  | (k', v) :: rest, k => if k' = k then some v else assocGet rest k

/-- Replace the value stored at a key, keeping entry order (models an
in-place `HashMap` update; a missing key leaves the list unchanged). -/
def assocSet {β : Type} : List (ClientId × β) → ClientId → β → List (ClientId × β)
  | [], _, _ => []
  | (k', v') :: rest, k, v =>
    if k' = k then (k', v) :: rest else (k', v') :: assocSet rest k v

/-- Model of `data.entry(client_id).or_insert(vec![]).push(block)`. -/
def assocPush {T : Type} : List (ClientId × List (Block T)) → ClientId → Block T →
    List (ClientId × List (Block T))
  | [], k, b => [(k, [b])]
  | (k', v) :: rest, k, b =>
    if k' = k then (k', v ++ [b]) :: rest else (k', v) :: assocPush rest k b

/-- Store, from `store.rs`: head/tail cursors, owning client id, and the
per-client block vectors. -/
structure Store (T : Type) where
  start : Option BlockId
  endId : Option BlockId
  client_id : ClientId
  data : List (ClientId × List (Block T))
deriving DecidableEq, Repr

/-- Store::new, `store.rs` lines 112-119. -/
def Store.new {T : Type} (client_id : ClientId) : Store T :=
  { start := none, endId := none, client_id := client_id, data := [] }

/-- Block lookup by client and vector index (Rust `self.data[&c][i]`,
which panics when absent: modelled by `none`). -/
def blockAt {T : Type} (s : Store T) (c : ClientId) (i : Nat) : Option (Block T) :=
  (assocGet s.data c).bind (fun v => v[i]?)

/-- The `Index<BlockId>` impl of `store.rs` lines 97-103. -/
def Store.getBlock {T : Type} (s : Store T) (bid : BlockId) : Option (Block T) :=
  blockAt s bid.client_id bid.clock

/-- The `IndexMut<BlockId>` impl followed by a field update: replace the
block at `bid` by `f` of it, failing (Rust panic) when absent. -/
def Store.modifyBlock {T : Type} (s : Store T) (bid : BlockId) (f : Block T → Block T) :
    Option (Store T) :=
  match assocGet s.data bid.client_id with
  | none => none
  | some v =>
    match v[bid.clock]? with
    | none => none
    | some b =>
      some { s with data := assocSet s.data bid.client_id (v.set bid.clock (f b)) }

/-- Push a block onto a client's vector (`store.rs` line 65 / 159 / 168). -/
def Store.pushBlock {T : Type} (s : Store T) (c : ClientId) (b : Block T) : Store T :=
  { s with data := assocPush s.data c b }

/-- Total number of blocks; used as iteration fuel (an acyclic list visits
each block at most once). -/
def Store.totalBlocks {T : Type} (s : Store T) : Nat :=
  (s.data.map (fun p => p.2.length)).sum

/-- One pass of `StoreIterator` (`store.rs` lines 237-270), following
`right` pointers from a concrete block.  Fuel exhaustion (a cycle, where
Rust diverges) and a missing block (where Rust panics) give `none`. -/
def iterGo {T : Type} (s : Store T) : Nat → BlockId → Option (List (BlockId × Block T))
  | 0, _ => none
  | fuel + 1, cur =>
    match s.getBlock cur with
    | none => none
    | some b =>
      match b.right with
      | none => some [(cur, b)]
      | some nxt => (iterGo s fuel nxt).map (fun rest => (cur, b) :: rest)

/-- Store::iter_blocks_with_offset: traversal starting at `start` (at the
list head when `start` is `none`). -/
def Store.iterBlocksFrom {T : Type} (s : Store T) (start : Option BlockId) :
    Option (List (BlockId × Block T)) :=
  match start with
  | some cur => iterGo s (s.totalBlocks + 1) cur
  | none =>
    match s.start with
    | none => some []
    | some cur => iterGo s (s.totalBlocks + 1) cur

/-- Store::iter_blocks. -/
def Store.iterBlocks {T : Type} (s : Store T) : Option (List (BlockId × Block T)) :=
  s.iterBlocksFrom none

/-- Store::iter_live_blocks: list traversal skipping tombstones. -/
def Store.iterLiveBlocks {T : Type} (s : Store T) : Option (List (BlockId × Block T)) :=
  s.iterBlocks.map (List.filter (fun x => !x.2.deleted))

/-- Store::iter_values, `store.rs` lines 231-235: concatenated payloads in
list order. -/
def Store.iterValues {T : Type} (s : Store T) : Option (List T) :=
  s.iterBlocks.map (fun l => (l.map (fun x => x.2.value)).flatten)

/-- Scan loop of Store::find_insertion_point (`store.rs` lines 75-87). -/
def findLoop {T : Type} (client_id : ClientId) (left right : Option BlockId) :
    List (BlockId × Block T) → Option BlockId
  | [] => none
  | (bid, b) :: rest =>
    if some bid = right then some bid
    else if b.left = left ∧ bid.client_id > client_id then some bid
    else findLoop client_id left right rest

/-- Store::find_insertion_point, `store.rs` lines 69-90.  The outer
`Option` is panic/divergence of the traversal; the inner one is the
returned insertion point. -/
def Store.find_insertion_point {T : Type} (s : Store T) (client_id : ClientId)
    (left right : Option BlockId) : Option (Option BlockId) :=
  (s.iterBlocksFrom left).map (findLoop client_id left right)

/-- Linking phase of Store::integrate for one block (`store.rs` lines
25-65), given the computed insertion point. -/
def integrateLink {T : Type} (s : Store T) (client_id : ClientId) (b : Block T)
    (insert_before : Option BlockId) : Option (Store T) :=
  let b := { b with right := insert_before }
  let new_block_id : BlockId := ⟨client_id, b.id⟩
  match insert_before with
  | some ib =>
    match s.getBlock ib with
    | none => none
    | some to_right =>
      let b := { b with left := to_right.left }
      let previous_left := to_right.left
      match s.modifyBlock ib (fun br => { br with left := some new_block_id }) with
      | none => none
      | some s =>
        match previous_left with
        | some tl =>
          match s.modifyBlock tl (fun bl => { bl with right := some new_block_id }) with
          | none => none
          | some s => some (s.pushBlock client_id b)
        | none => some (({ s with start := some new_block_id } : Store T).pushBlock client_id b)
  | none =>
    match s.endId with
    | some e =>
      match s.modifyBlock e (fun be => { be with right := some new_block_id }) with
      | none => none
      | some s => some (({ s with endId := some new_block_id } : Store T).pushBlock client_id b)
    | none =>
      some (({ s with start := some new_block_id, endId := some new_block_id } : Store T).pushBlock
        client_id b)

/-- Integration of a single remote block: find the insertion point from the
origin pointers, then link. -/
def integrateBlock {T : Type} (s : Store T) (client_id : ClientId) (b : Block T) :
    Option (Store T) :=
  match s.find_insertion_point client_id b.origin_left b.origin_right with
  | none => none
  | some ib => integrateLink s client_id b ib

/-- Store::integrate, `store.rs` lines 20-67: integrate remote blocks in
order. -/
def Store.integrate {T : Type} (s : Store T) (client_id : ClientId)
    (blocks : List (Block T)) : Option (Store T) :=
  blocks.foldlM (fun s b => integrateBlock s client_id b) s

/-- Store::add_block stage one (`store.rs` lines 176-187): link the `next`
neighbor, or append at the tail. -/
def linkNext {T : Type} (s : Store T) (block_id : BlockId) (next : Option BlockId) :
    Option (Store T) :=
  match next with
  | some nxt => s.modifyBlock nxt (fun nb => { nb with left := some block_id })
  | none =>
    match s.endId with
    | some e =>
      (s.modifyBlock e (fun eb => { eb with right := some block_id })).map
        (fun s => { s with endId := some block_id })
    | none => some { s with endId := some block_id }

/-- Store::add_block stage two (`store.rs` lines 189-200): link the
`previous` neighbor, or become the new head. -/
def linkPrevious {T : Type} (s : Store T) (block_id : BlockId) (previous : Option BlockId) :
    Option (Store T) :=
  match previous with
  | some prev => s.modifyBlock prev (fun pb => { pb with right := some block_id })
  | none =>
    match s.start with
    | some st =>
      (s.modifyBlock st (fun sb => { sb with left := some block_id })).map
        (fun s => { s with start := some block_id })
    | none => some { s with start := some block_id }

/-- Store::add_block, `store.rs` lines 153-201: allocate the next clock for
the local client, push the block, then link both sides. -/
def Store.add_block {T : Type} (s : Store T) (previous next : Option BlockId) (value : T) :
    Option (Store T) :=
  let id := match assocGet s.data s.client_id with
    | some v => v.length
    | none => 0
  let block_id : BlockId := ⟨s.client_id, id⟩
  let s := s.pushBlock s.client_id (Block.with_value_and_right id previous next value)
  (linkNext s block_id next).bind (fun s => linkPrevious s block_id previous)

/-- Store::append, `store.rs` lines 121-123. -/
def Store.append {T : Type} (s : Store T) (value : T) : Option (Store T) :=
  s.add_block s.endId none value

/-- Store::insert, `store.rs` lines 125-134: `previous` is the `index`-th
live block (Rust `Iterator::nth(index)`), `next` is its `right` field. -/
def Store.insert {T : Type} (s : Store T) (index : Nat) (value : T) : Option (Store T) :=
  s.iterLiveBlocks.bind (fun live =>
    let pn : Option BlockId × Option BlockId :=
      match live[index]? with
      | some x => (some x.1, x.2.right)
      | none => (none, none)
    s.add_block pn.1 pn.2 value)

/-- Store::delete_range, `store.rs` lines 136-147: collect the ids of the
live blocks at positions `index ..< index + count` and tombstone each. -/
def Store.delete_range {T : Type} (s : Store T) (index count : Nat) : Option (Store T) :=
  s.iterLiveBlocks.bind (fun live =>
    let ids := ((live.drop index).take count).map (fun x => x.1)
    ids.foldlM (fun s bid => s.modifyBlock bid Block.delete) s)

/-- Document, from `document.rs` lines 21-27: a Store, the local client id,
a clock and the ClockVector (`clients`). -/
structure Document (T : Type) where
  clock : Clock
  client_id : ClientId
  clients : List (ClientId × Clock)
  store : Store T
deriving DecidableEq, Repr

/-- Document::with_client_id, `document.rs` lines 30-37. -/
def Document.with_client_id {T : Type} (client_id : ClientId) : Document T :=
  { clock := 0, client_id := client_id, clients := [], store := Store.new client_id }

/-- The receiver's clock for a client, `document.clients.get(&c).unwrap_or(&0)`. -/
def clockOf {T : Type} (d : Document T) (c : ClientId) : Clock :=
  (assocGet d.clients c).getD 0

/-- DeleteSet, `delete_set.rs` lines 6-9: per-client (startClock, length)
runs. -/
structure DeleteSet where
  deletes : List (ClientId × List (Clock × Nat))
deriving DecidableEq, Repr

/-- DeleteSet::empty. -/
def DeleteSet.empty : DeleteSet := ⟨[]⟩

/-- DeleteSet::apply, `delete_set.rs` lines 12-20: tombstone every clock in
every run; a clock with no block is a Rust panic, modelled as `none`. -/
def DeleteSet.apply {T : Type} (ds : DeleteSet) (d : Document T) : Option (Document T) :=
  (ds.deletes.foldlM
      (fun st (p : ClientId × List (Clock × Nat)) =>
        p.2.foldlM
          (fun st (q : Clock × Nat) =>
            (List.range q.2).foldlM
              (fun st i => Store.modifyBlock st ⟨p.1, q.1 + i⟩ Block.delete) st)
          st)
      d.store).map
    (fun st => { d with store := st })

/-- Content, `update.rs` lines 13-17: a run of live values or a run of
pre-tombstoned positions. -/
inductive Content (T : Type) where
  | Value : List T → Content T
  | Deleted : Nat → Content T
deriving DecidableEq, Repr

/-- UpdateBlock, `update.rs` lines 39-44. -/
structure UpdateBlock (T : Type) where
  origin_left : Option BlockId
  origin_right : Option BlockId
  value : Content T
deriving DecidableEq, Repr

/-- UpdateBlock::hydrate, `update.rs` lines 47-63: assign the clock, clear
the list links, compute length from the content. -/
def UpdateBlock.hydrate {T : Type} (ub : UpdateBlock T) (id : Clock) : Block T :=
  match ub.value with
  | .Value v =>
    { id := id, origin_left := ub.origin_left, left := none,
      origin_right := ub.origin_right, right := none,
      value := v, length := v.length, deleted := false }
  | .Deleted size =>
    { id := id, origin_left := ub.origin_left, left := none,
      origin_right := ub.origin_right, right := none,
      value := [], length := size, deleted := false }

/-- Update, `update.rs` lines 135-140: dependency ranges (client, start,
end), the block lists and a DeleteSet. -/
structure Update (T : Type) where
  dependency : List (ClientId × Clock × Clock)
  blocks : List (ClientId × List (UpdateBlock T))
  deletes : DeleteSet
deriving DecidableEq, Repr

/-- ValidationError, `update.rs` lines 142-147. -/
inductive ValidationError where
  | ClientDoesNotExist : ClientId → ValidationError
  | UpdateOutsideRange : BlockId → ValidationError
  | InvalidUpdateRange : ClientId → ValidationError
deriving DecidableEq, Repr

/-- Update::get_version_range, `update.rs` lines 237-242: first dependency
entry for the client. -/
def Update.get_version_range {T : Type} (u : Update T) (client_id : ClientId) :
    Option (Clock × Clock) :=
  (u.dependency.find? (fun p => p.1 == client_id)).map (fun p => p.2)

/-- Update::does_clock_exist, `update.rs` lines 244-256: a set origin must
name a client with a dependency entry and have clock ≤ the range's end. -/
def Update.does_clock_exist {T : Type} (u : Update T) (b : Option BlockId) : Bool :=
  match b with
  | none => true
  | some bid =>
    match u.get_version_range bid.client_id with
    | none => false
    | some r => !(bid.clock > r.2)

/-- Inner loop of Update::validate over one client's blocks (`update.rs`
lines 210-223); the `.getD ⟨0, 0⟩` models the `unwrap()` that can only run
when the origin is `Some`. -/
def validateBlocks {T : Type} (u : Update T) : List (UpdateBlock T) → Option ValidationError
  | [] => none
  | b :: rest =>
    if !u.does_clock_exist b.origin_left then
      some (.UpdateOutsideRange (b.origin_left.getD ⟨0, 0⟩))
    else if !u.does_clock_exist b.origin_right then
      some (.UpdateOutsideRange (b.origin_right.getD ⟨0, 0⟩))
    else validateBlocks u rest

/-- Outer loop of Update::validate (`update.rs` lines 209-235). -/
def validateEntries {T : Type} (u : Update T) :
    List (ClientId × List (UpdateBlock T)) → Option ValidationError
  | [] => none
  | (client, blocks) :: rest =>
    match validateBlocks u blocks with
    | some e => some e
    | none =>
      match u.get_version_range client with
      | some r =>
        if r.2 - r.1 ≠ blocks.length then some (.InvalidUpdateRange client)
        else validateEntries u rest
      | none => some (.ClientDoesNotExist client)

/-- Update::validate, `update.rs` lines 209-235. -/
def Update.validate {T : Type} (u : Update T) : Except ValidationError Unit :=
  match validateEntries u u.blocks with
  | some e => .error e
  | none => .ok ()

/-- Outcome of Update::apply: success with the new document, the
dependency error `Err(())`, or a Rust panic inside integration. -/
inductive ApplyResult (T : Type) where
  | ok : Document T → ApplyResult T
  | err : ApplyResult T
  | panic : ApplyResult T
deriving DecidableEq, Repr

/-- Extract the resulting document of a successful apply. -/
def ApplyResult.doc? {T : Type} : ApplyResult T → Option (Document T)
  | .ok d => some d
  | _ => none

/-- Update::apply, `update.rs` lines 172-193: fail when some dependency's
start exceeds the local clock for that client, otherwise hydrate each
client's blocks with clocks 0,1,2,... and integrate them.  The DeleteSet
and the ClockVector are not touched by the source. -/
def Update.apply {T : Type} (u : Update T) (d : Document T) : ApplyResult T :=
  if u.dependency.any (fun p => decide (clockOf d p.1 < p.2.1)) then .err
  else
    match u.blocks.foldlM
        (fun st (p : ClientId × List (UpdateBlock T)) =>
          Store.integrate st p.1 (p.2.enum.map (fun x => x.2.hydrate x.1)))
        d.store with
    | none => .panic
    | some st => .ok { d with store := st }

/-- Apply a list of updates in order, stopping at the first failure. -/
def applySeq {T : Type} : List (Update T) → Document T → ApplyResult T
  | [], d => .ok d
  | u :: rest, d =>
    match u.apply d with
    | .ok d' => applySeq rest d'
    | r => r

/-- Concurrent single-block insertion by replica 1 (payload 1, no
origins): the update replica 1 would broadcast after `append` on an empty
document. -/
def upd1 : Update Nat := ⟨[(1, 0, 1)], [(1, [⟨none, none, .Value [1]⟩])], ⟨[]⟩⟩

/-- Concurrent single-block insertion by replica 2 (payload 2). -/
def upd2 : Update Nat := ⟨[(2, 0, 1)], [(2, [⟨none, none, .Value [2]⟩])], ⟨[]⟩⟩

/-- Concurrent single-block insertion by replica 3 (payload 3). -/
def upd3 : Update Nat := ⟨[(3, 0, 1)], [(3, [⟨none, none, .Value [3]⟩])], ⟨[]⟩⟩

/-- A fresh observer document with a client id distinct from 1, 2, 3. -/
def dObs : Document Nat := Document.with_client_id 100

/-- Values of a document after a sequence of updates (`none` when some
apply failed or iteration diverges). -/
def valuesAfter (us : List (Update Nat)) (d : Document Nat) : Option (List Nat) :=
  (applySeq us d).doc?.bind (fun d => d.store.iterValues)

/-- Scenario S1 of the spec: replica 1 appends "A", appends "B", then
calls insert(1, "C"). -/
def s1Store : Option (Store String) :=
  ((Store.new 1 : Store String).append "A").bind
    (fun s => (s.append "B").bind (fun s => s.insert 1 "C"))

/-- A document owned by replica 1, used as receiver in several scenarios. -/
def dRecv : Document Nat := Document.with_client_id 1

/-- Update that inserts one block for replica 2 and declares that same
block deleted in its DeleteSet. -/
def updWithDelete : Update Nat :=
  ⟨[(2, 0, 1)], [(2, [⟨none, none, .Value [7]⟩])], ⟨[(2, [(0, 1)])]⟩⟩

/-- The update of spec scenario S5: dependency [(3, 2..3)], no blocks. -/
def s5Update : Update Nat := ⟨[(3, 2, 3)], [], ⟨[]⟩⟩

/-- The valid update of the repo's `validate_ok_if_valid_update` test:
origin (2,0) with declared range (2, 0..0). -/
def uValid : Update Nat := ⟨[(1, 0, 1), (2, 0, 0)], [(1, [⟨some ⟨2, 0⟩, none, .Value [5]⟩])], ⟨[]⟩⟩

/-- Update whose block's origin_left names a replica absent from the
store: the dependency check passes but integration panics. -/
def uPanic : Update Nat := ⟨[(1, 0, 1)], [(1, [⟨some ⟨2, 0⟩, none, .Value [9]⟩])], ⟨[]⟩⟩

/-- Receiver holding two blocks 10, 11 appended by replica 1. -/
def dTwo : Document Nat :=
  { (Document.with_client_id 1 : Document Nat) with
    store := (((Store.new 1 : Store Nat).append 10).bind (fun s => s.append 11)).getD
      (Store.new 1) }

/-- Update with no dependency entries whose block's origins point at
replica 1's blocks: structurally invalid, yet apply integrates it. -/
def uInvalid : Update Nat := ⟨[], [(2, [⟨some ⟨1, 0⟩, some ⟨1, 1⟩, .Value [12]⟩])], ⟨[]⟩⟩

/-- Tombstone-permanence relation between two stores: every block slot of
the first store still exists in the second at the same (client, clock)
position, with the same `length` field, and a set tombstone stays set. -/
def blocksPreserved {T : Type} (s s' : Store T) : Prop :=
  ∀ c i b, blockAt s c i = some b →
    ∃ b', blockAt s' c i = some b' ∧ b'.length = b.length ∧
      (b.deleted = true → b'.deleted = true)

/-- A block-to-block function that keeps `length` and never clears a set
tombstone; every field update performed by the store operations is one. -/
def keepsTombstone {T : Type} (f : Block T → Block T) : Prop :=
  ∀ b, (f b).length = b.length ∧ (b.deleted = true → (f b).deleted = true)

/-- Upper bound of u64, the width of clocks, client ids and lengths on
the wire.  The wire format of `Update` in the source is produced by the
serialization library's derive macros, whose code is not part of this
repository; the codec below is modelled from the spec: variable-length
unsigned integers for lengths and clocks, length-prefixed sequences for
the `dependency`, `blocks` and `deletes` lists, a one-byte discriminator
for `content` (0 = Value, 1 = Deleted) and for `Option`, and BlockId as
two varints.  Items are modelled as `Nat` values written as varints;
bytes are `Nat`s below 256. -/
def W64 : Nat := 18446744073709551616

/-- Modelled from the spec: variable-length unsigned integer encoding
(single byte up to 250, then 2-, 4- or 8-byte little-endian payloads
behind the marker bytes 251, 252, 253). -/
def writeVarint (n : Nat) : List Nat :=
  if n ≤ 250 then [n]
  else if n < 65536 then [251, n % 256, n / 256 % 256]
  else if n < 4294967296 then
    [252, n % 256, n / 256 % 256, n / 65536 % 256, n / 16777216 % 256]
  else
    [253, n % 256, n / 256 % 256, n / 65536 % 256, n / 16777216 % 256,
      n / 4294967296 % 256, n / 1099511627776 % 256, n / 281474976710656 % 256,
      n / 72057594037927936 % 256]

/-- Decoder of the variable-length unsigned integer encoding. -/
def readVarint : List Nat → Option (Nat × List Nat)
  | [] => none
  | b :: rest =>
    if b ≤ 250 then some (b, rest)
    else if b = 251 then
      match rest with
      | b0 :: b1 :: r => some (b0 + 256 * b1, r)
      | _ => none
    else if b = 252 then
      match rest with
      | b0 :: b1 :: b2 :: b3 :: r =>
        some (b0 + 256 * b1 + 65536 * b2 + 16777216 * b3, r)
      | _ => none
    else if b = 253 then
      match rest with
      | b0 :: b1 :: b2 :: b3 :: b4 :: b5 :: b6 :: b7 :: r =>
        some (b0 + 256 * b1 + 65536 * b2 + 16777216 * b3 + 4294967296 * b4 +
          1099511627776 * b5 + 281474976710656 * b6 + 72057594037927936 * b7, r)
      | _ => none
    else none

/-- Length-prefixed sequence: varint count then the encoded elements. -/
def writeList {α : Type} (enc : α → List Nat) (l : List α) : List Nat :=
  writeVarint l.length ++ (l.map enc).flatten

/-- Read a fixed count of elements. -/
def readCount {α : Type} (dec : List Nat → Option (α × List Nat)) :
    Nat → List Nat → Option (List α × List Nat)
  | 0, bs => some ([], bs)
  | n + 1, bs =>
    (dec bs).bind (fun x => (readCount dec n x.2).map (fun y => (x.1 :: y.1, y.2)))

/-- Read a length-prefixed sequence. -/
def readList {α : Type} (dec : List Nat → Option (α × List Nat)) (bs : List Nat) :
    Option (List α × List Nat) :=
  (readVarint bs).bind (fun x => readCount dec x.1 x.2)

/-- BlockId on the wire: two varints. -/
def writeBlockId (b : BlockId) : List Nat :=
  writeVarint b.client_id ++ writeVarint b.clock

/-- BlockId decoder. -/
def readBlockId (bs : List Nat) : Option (BlockId × List Nat) :=
  (readVarint bs).bind (fun c => (readVarint c.2).map (fun k => (⟨c.1, k.1⟩, k.2)))

/-- Well-formedness of a BlockId's fields for the wire (u64 bounds). -/
def bidWF (b : BlockId) : Bool :=
  decide (b.client_id < W64) && decide (b.clock < W64)

/-- Option on the wire: a one-byte discriminator then the payload. -/
def writeOption {α : Type} (enc : α → List Nat) : Option α → List Nat
  | none => [0]
  | some a => 1 :: enc a

/-- Option decoder. -/
def readOption {α : Type} (dec : List Nat → Option (α × List Nat)) :
    List Nat → Option (Option α × List Nat)
  | 0 :: r => some (none, r)
  | 1 :: r => (dec r).map (fun x => (some x.1, x.2))
  | _ => none

/-- Content on the wire: tag byte 0 for Value (then a length-prefixed run
of varint items), 1 for Deleted (then the varint length). -/
def writeContent : Content Nat → List Nat
  | .Value v => 0 :: writeList writeVarint v
  | .Deleted n => 1 :: writeVarint n

/-- Content decoder. -/
def readContent : List Nat → Option (Content Nat × List Nat)
  | 0 :: r => (readList readVarint r).map (fun x => (.Value x.1, x.2))
  | 1 :: r => (readVarint r).map (fun x => (.Deleted x.1, x.2))
  | _ => none

/-- Well-formedness of Content for the wire. -/
def contentWF : Content Nat → Bool
  | .Value v => decide (v.length < W64) && v.all (fun x => decide (x < W64))
  | .Deleted n => decide (n < W64)

/-- UpdateBlock on the wire: the two optional origins then the content. -/
def writeUpdateBlock (b : UpdateBlock Nat) : List Nat :=
  writeOption writeBlockId b.origin_left ++ writeOption writeBlockId b.origin_right ++
    writeContent b.value

/-- UpdateBlock decoder. -/
def readUpdateBlock (bs : List Nat) : Option (UpdateBlock Nat × List Nat) :=
  (readOption readBlockId bs).bind (fun ol =>
    (readOption readBlockId ol.2).bind (fun orr =>
      (readContent orr.2).map (fun c => (⟨ol.1, orr.1, c.1⟩, c.2))))

/-- Well-formedness of an optional origin. -/
def obidWF : Option BlockId → Bool
  | none => true
  | some b => bidWF b

/-- Well-formedness of an UpdateBlock. -/
def ublockWF (b : UpdateBlock Nat) : Bool :=
  obidWF b.origin_left && obidWF b.origin_right && contentWF b.value

/-- Dependency entry (client, start, end) on the wire: three varints. -/
def writeDep (p : ClientId × Clock × Clock) : List Nat :=
  writeVarint p.1 ++ writeVarint p.2.1 ++ writeVarint p.2.2

/-- Dependency entry decoder. -/
def readDep (bs : List Nat) : Option ((ClientId × Clock × Clock) × List Nat) :=
  (readVarint bs).bind (fun c =>
    (readVarint c.2).bind (fun s =>
      (readVarint s.2).map (fun e => ((c.1, s.1, e.1), e.2))))

/-- Well-formedness of a dependency entry. -/
def depWF (p : ClientId × Clock × Clock) : Bool :=
  decide (p.1 < W64) && decide (p.2.1 < W64) && decide (p.2.2 < W64)

/-- Blocks entry (client, update blocks) on the wire. -/
def writeBlocksEntry (p : ClientId × List (UpdateBlock Nat)) : List Nat :=
  writeVarint p.1 ++ writeList writeUpdateBlock p.2

/-- Blocks entry decoder. -/
def readBlocksEntry (bs : List Nat) :
    Option ((ClientId × List (UpdateBlock Nat)) × List Nat) :=
  (readVarint bs).bind (fun c =>
    (readList readUpdateBlock c.2).map (fun l => ((c.1, l.1), l.2)))

/-- Well-formedness of a blocks entry. -/
def blocksEntryWF (p : ClientId × List (UpdateBlock Nat)) : Bool :=
  decide (p.1 < W64) && decide (p.2.length < W64) && p.2.all ublockWF

/-- Tombstone run (startClock, length) on the wire: two varints. -/
def writeRun (q : Clock × Nat) : List Nat :=
  writeVarint q.1 ++ writeVarint q.2

/-- Tombstone run decoder. -/
def readRun (bs : List Nat) : Option ((Clock × Nat) × List Nat) :=
  (readVarint bs).bind (fun s => (readVarint s.2).map (fun l => ((s.1, l.1), l.2)))

/-- Well-formedness of a tombstone run. -/
def runWF (q : Clock × Nat) : Bool :=
  decide (q.1 < W64) && decide (q.2 < W64)

/-- DeleteSet entry (client, runs) on the wire. -/
def writeDelEntry (p : ClientId × List (Clock × Nat)) : List Nat :=
  writeVarint p.1 ++ writeList writeRun p.2

/-- DeleteSet entry decoder. -/
def readDelEntry (bs : List Nat) :
    Option ((ClientId × List (Clock × Nat)) × List Nat) :=
  (readVarint bs).bind (fun c =>
    (readList readRun c.2).map (fun l => ((c.1, l.1), l.2)))

/-- Well-formedness of a DeleteSet entry. -/
def delEntryWF (p : ClientId × List (Clock × Nat)) : Bool :=
  decide (p.1 < W64) && decide (p.2.length < W64) && p.2.all runWF

/-- Wire encoding of an Update: the three length-prefixed sections. -/
def encodeUpdate (u : Update Nat) : List Nat :=
  writeList writeDep u.dependency ++ writeList writeBlocksEntry u.blocks ++
    writeList writeDelEntry u.deletes.deletes

/-- Wire decoding of an Update. -/
def decodeUpdate (bs : List Nat) : Option (Update Nat × List Nat) :=
  (readList readDep bs).bind (fun d =>
    (readList readBlocksEntry d.2).bind (fun b =>
      (readList readDelEntry b.2).map (fun ds => (⟨d.1, b.1, ⟨ds.1⟩⟩, ds.2))))

/-- Validity of an Update for the wire: every number fits in a u64. -/
def updateWF (u : Update Nat) : Bool :=
  decide (u.dependency.length < W64) && u.dependency.all depWF &&
    (decide (u.blocks.length < W64) && u.blocks.all blocksEntryWF) &&
    (decide (u.deletes.deletes.length < W64) && u.deletes.deletes.all delEntryWF)

/-- Store of the repo's `test_deletion` scenario: replica 1 appends the
values 0, 1, 2, 3. -/
def store4 : Store Nat :=
  (((((Store.new 1 : Store Nat).append 0).bind (fun s => s.append 1)).bind
      (fun s => s.append 2)).bind (fun s => s.append 3)).getD (Store.new 1)

/-- `store4` after `delete_range(1, 2)`. -/
def store4del : Store Nat := (store4.delete_range 1 2).getD (Store.new 1)

/-- Live-block list of `store4`. -/
def live4 : List (BlockId × Block Nat) := store4.iterLiveBlocks.getD []

/-- The block at (1, 1) in `store4`, before deletion. -/
def blk11 : Block Nat :=
  { id := 1, origin_left := some ⟨1, 0⟩, left := some ⟨1, 0⟩, origin_right := none,
    right := some ⟨1, 2⟩, value := [1], length := 1, deleted := false }

/-- Concrete update used to witness the serialization round-trip: two
dependency entries, two blocks (one Value run with a multi-byte item, one
Deleted run), and one DeleteSet run. -/
def u8 : Update Nat :=
  ⟨[(1, 0, 2), (2, 0, 0)],
    [(1, [⟨some ⟨2, 0⟩, none, .Value [300, 5]⟩, ⟨none, some ⟨1, 1⟩, .Deleted 1⟩])],
    ⟨[(1, [(0, 1)])]⟩⟩

theorem blocksPreserved_refl {T : Type} (s : Store T) : blocksPreserved s s :=
  fun _ _ b hb => ⟨b, hb, rfl, fun h => h⟩

theorem blocksPreserved_trans {T : Type} {s₁ s₂ s₃ : Store T}
    (h₁ : blocksPreserved s₁ s₂) (h₂ : blocksPreserved s₂ s₃) : blocksPreserved s₁ s₃ := by
  intro c i b hb
  obtain ⟨b', hb', hl', hd'⟩ := h₁ c i b hb
  obtain ⟨b'', hb'', hl'', hd''⟩ := h₂ c i b' hb'
  exact ⟨b'', hb'', hl''.trans hl', fun h => hd'' (hd' h)⟩

theorem blocksPreserved_of_data_eq {T : Type} {s s' : Store T} (h : s'.data = s.data) :
    blocksPreserved s s' := by
  intro c i b hb
  exact ⟨b, by simpa [blockAt, h] using hb, rfl, fun h => h⟩

theorem assocGet_assocSet {β : Type} (l : List (ClientId × β)) (k : ClientId) (v : β)
    (k' : ClientId) :
    assocGet (assocSet l k v) k' =
      if k' = k then (assocGet l k).map (fun _ => v) else assocGet l k' := by
  induction l with
  | nil => simp only [assocSet, assocGet]; split <;> rfl
  | cons p rest ih =>
    obtain ⟨a, w⟩ := p
    by_cases hak : a = k
    · subst hak
      by_cases hk : k' = a
      · subst hk
        simp [assocSet, assocGet]
      · simp [assocSet, assocGet, hk, Ne.symm hk]
    · by_cases hak' : a = k'
      · subst hak'
        simp [assocSet, assocGet, hak, Ne.symm hak, ih]
      · simp [assocSet, assocGet, hak, hak', ih]

theorem assocGet_assocPush {T : Type} (l : List (ClientId × List (Block T))) (k : ClientId)
    (b : Block T) (k' : ClientId) :
    assocGet (assocPush l k b) k' =
      if k' = k then some ((assocGet l k).getD [] ++ [b]) else assocGet l k' := by
  induction l with
  | nil =>
    by_cases hk : k' = k
    · subst hk; simp [assocPush, assocGet]
    · simp [assocPush, assocGet, hk, Ne.symm hk]
  | cons p rest ih =>
    obtain ⟨a, w⟩ := p
    by_cases hak : a = k
    · subst hak
      by_cases hk : k' = a
      · subst hk; simp [assocPush, assocGet]
      · simp [assocPush, assocGet, hk, Ne.symm hk]
    · by_cases hak' : a = k'
      · subst hak'
        simp [assocPush, assocGet, hak, Ne.symm hak, ih]
      · simp [assocPush, assocGet, hak, hak', ih]

theorem blockAt_modifyBlock {T : Type} {s : Store T} {bid : BlockId}
    {f : Block T → Block T} {s' : Store T} (h : s.modifyBlock bid f = some s')
    (c : ClientId) (i : Nat) :
    blockAt s' c i =
      if c = bid.client_id ∧ i = bid.clock then (blockAt s c i).map f
      else blockAt s c i := by
  unfold Store.modifyBlock at h
  cases hv : assocGet s.data bid.client_id with
  | none => simp [hv] at h
  | some v =>
    simp only [hv] at h
    cases hb : v[bid.clock]? with
    | none => simp [hb] at h
    | some b =>
      simp only [hb, Option.some.injEq] at h
      subst h
      have hlen : bid.clock < v.length := by
        cases Nat.lt_or_ge bid.clock v.length with
        | inl hlt => exact hlt
        | inr hge => rw [List.getElem?_eq_none hge] at hb; cases hb
      by_cases hc : c = bid.client_id
      · subst hc
        simp only [blockAt, assocGet_assocSet, if_pos rfl, hv, Option.map_some']
        by_cases hi : i = bid.clock
        · subst hi
          simp [hv, List.getElem?_set_self hlen, hb]
        · simp [hv, List.getElem?_set_ne (Ne.symm hi), hi]
      · simp [blockAt, assocGet_assocSet, hc]

theorem modifyBlock_preserves {T : Type} {s : Store T} {bid : BlockId}
    {f : Block T → Block T} {s' : Store T}
    (hf : ∀ b, (f b).length = b.length ∧ (b.deleted = true → (f b).deleted = true))
    (h : s.modifyBlock bid f = some s') : blocksPreserved s s' := by
  intro c i b hb
  rw [blockAt_modifyBlock h c i]
  by_cases hci : c = bid.client_id ∧ i = bid.clock
  · rw [if_pos hci, hb]
    exact ⟨f b, rfl, (hf b).1, (hf b).2⟩
  · rw [if_neg hci]
    exact ⟨b, hb, rfl, fun h => h⟩

theorem modifyBlock_self {T : Type} {s : Store T} {bid : BlockId}
    {f : Block T → Block T} {s' : Store T} (h : s.modifyBlock bid f = some s') :
    ∃ b, s.getBlock bid = some b ∧ s'.getBlock bid = some (f b) := by
  have hc := blockAt_modifyBlock h bid.client_id bid.clock
  rw [if_pos ⟨rfl, rfl⟩] at hc
  unfold Store.modifyBlock at h
  cases hv : assocGet s.data bid.client_id with
  | none => simp [hv] at h
  | some v =>
    simp only [hv] at h
    cases hb : v[bid.clock]? with
    | none => simp [hb] at h
    | some b =>
      refine ⟨b, ?_, ?_⟩
      · simp [Store.getBlock, blockAt, hv, hb]
      · rw [Store.getBlock, hc]
        simp [blockAt, hv, hb]

theorem pushBlock_preserves {T : Type} (s : Store T) (c : ClientId) (b : Block T) :
    blocksPreserved s (s.pushBlock c b) := by
  intro c' i bb hbb
  refine ⟨bb, ?_, rfl, fun h => h⟩
  unfold blockAt Store.pushBlock at *
  simp only [assocGet_assocPush]
  by_cases hc : c' = c
  · subst hc
    cases hv : assocGet s.data c' with
    | none => simp [hv] at hbb
    | some v =>
      simp only [hv, Option.some_bind] at hbb
      have hlen : i < v.length := by
        cases Nat.lt_or_ge i v.length with
        | inl hlt => exact hlt
        | inr hge => rw [List.getElem?_eq_none hge] at hbb; cases hbb
      simp [hv, List.getElem?_append_left hlen, hbb]
  · simp only [if_neg hc]
    exact hbb

theorem foldlM_preserves {T α : Type} {step : Store T → α → Option (Store T)}
    (hstep : ∀ s x s', step s x = some s' → blocksPreserved s s') :
    ∀ (l : List α) (s s' : Store T), l.foldlM step s = some s' → blocksPreserved s s'
  | [], s, s', h => by
    simp only [List.foldlM_nil, pure, Option.some.injEq] at h
    exact h ▸ blocksPreserved_refl s
  | x :: rest, s, s', h => by
    simp only [List.foldlM_cons] at h
    cases hx : step s x with
    | none => rw [hx] at h; cases h
    | some s₁ =>
      rw [hx] at h
      simp only [Option.bind_eq_bind, Option.some_bind] at h
      exact blocksPreserved_trans (hstep s x s₁ hx)
        (foldlM_preserves hstep rest s₁ s' h)

theorem Block.delete_length {T : Type} (b : Block T) : (Block.delete b).length = b.length := by
  unfold Block.delete; split <;> rfl

theorem Block.delete_deleted {T : Type} (b : Block T) : (Block.delete b).deleted = true := by
  unfold Block.delete
  split
  · assumption
  · rfl

theorem keepsTombstone_delete {T : Type} : keepsTombstone (Block.delete (T := T)) :=
  fun b => ⟨Block.delete_length b, fun _ => Block.delete_deleted b⟩

/-- Restatement of `modifyBlock_preserves` taking the computation first, so
that the modified function is determined before the side condition. -/
theorem modifyBlock_preserves' {T : Type} {s : Store T} {bid : BlockId}
    {f : Block T → Block T} {s' : Store T} (h : s.modifyBlock bid f = some s')
    (hf : keepsTombstone f) : blocksPreserved s s' :=
  modifyBlock_preserves hf h

theorem linkNext_preserves {T : Type} {s : Store T} {bid : BlockId} {nxt : Option BlockId}
    {s' : Store T} (h : linkNext s bid nxt = some s') : blocksPreserved s s' := by
  unfold linkNext at h
  cases nxt with
  | some n =>
    exact modifyBlock_preserves' h (fun b => ⟨rfl, fun hh => hh⟩)
  | none =>
    dsimp only at h
    cases he : s.endId with
    | some e =>
      rw [he] at h
      dsimp only at h
      rw [Option.map_eq_some'] at h
      obtain ⟨s₁, h₁, h₂⟩ := h
      subst h₂
      exact blocksPreserved_trans
        (modifyBlock_preserves' h₁ (fun b => ⟨rfl, fun hh => hh⟩))
        (blocksPreserved_of_data_eq rfl)
    | none =>
      rw [he] at h
      dsimp only at h
      rw [Option.some.injEq] at h
      subst h
      exact blocksPreserved_of_data_eq rfl

theorem linkPrevious_preserves {T : Type} {s : Store T} {bid : BlockId}
    {prev : Option BlockId} {s' : Store T} (h : linkPrevious s bid prev = some s') :
    blocksPreserved s s' := by
  unfold linkPrevious at h
  cases prev with
  | some p =>
    exact modifyBlock_preserves' h (fun b => ⟨rfl, fun hh => hh⟩)
  | none =>
    dsimp only at h
    cases hs : s.start with
    | some st =>
      rw [hs] at h
      dsimp only at h
      rw [Option.map_eq_some'] at h
      obtain ⟨s₁, h₁, h₂⟩ := h
      subst h₂
      exact blocksPreserved_trans
        (modifyBlock_preserves' h₁ (fun b => ⟨rfl, fun hh => hh⟩))
        (blocksPreserved_of_data_eq rfl)
    | none =>
      rw [hs] at h
      dsimp only at h
      rw [Option.some.injEq] at h
      subst h
      exact blocksPreserved_of_data_eq rfl

theorem add_block_preserves {T : Type} {s : Store T} {prev nxt : Option BlockId} {v : T}
    {s' : Store T} (h : s.add_block prev nxt v = some s') : blocksPreserved s s' := by
  simp only [Store.add_block] at h
  rw [Option.bind_eq_some] at h
  obtain ⟨s₁, h₁, h₂⟩ := h
  exact blocksPreserved_trans
    (blocksPreserved_trans (pushBlock_preserves s _ _) (linkNext_preserves h₁))
    (linkPrevious_preserves h₂)

theorem append_preserves {T : Type} {s : Store T} {v : T} {s' : Store T}
    (h : s.append v = some s') : blocksPreserved s s' :=
  add_block_preserves h

theorem insert_preserves {T : Type} {s : Store T} {i : Nat} {v : T} {s' : Store T}
    (h : s.insert i v = some s') : blocksPreserved s s' := by
  unfold Store.insert at h
  rw [Option.bind_eq_some] at h
  obtain ⟨live, _, h₂⟩ := h
  exact add_block_preserves h₂

theorem delete_fold_preserves {T : Type} :
    ∀ (ids : List BlockId) (s s' : Store T),
      ids.foldlM (fun s bid => s.modifyBlock bid Block.delete) s = some s' →
      blocksPreserved s s' :=
  fun ids s s' h =>
    foldlM_preserves (fun _ _ _ hm => modifyBlock_preserves keepsTombstone_delete hm) ids s s' h

theorem delete_fold_marks {T : Type} :
    ∀ (ids : List BlockId) (s s' : Store T),
      ids.foldlM (fun s bid => s.modifyBlock bid Block.delete) s = some s' →
      ∀ bid ∈ ids, ∃ b, s'.getBlock bid = some b ∧ b.deleted = true
  | [], _, _, _, bid, hm => absurd hm (List.not_mem_nil bid)
  | x :: rest, s, s', h, bid, hm => by
    simp only [List.foldlM_cons] at h
    cases hx : s.modifyBlock x Block.delete with
    | none => rw [hx] at h; cases h
    | some s₁ =>
      rw [hx] at h
      simp only [Option.bind_eq_bind, Option.some_bind] at h
      rcases List.mem_cons.mp hm with rfl | hmem
      · obtain ⟨b, _, hb'⟩ := modifyBlock_self hx
        obtain ⟨b'', hb'', _, hd''⟩ :=
          delete_fold_preserves rest s₁ s' h bid.client_id bid.clock _ hb'
        exact ⟨b'', hb'', hd'' (Block.delete_deleted b)⟩
      · exact delete_fold_marks rest s₁ s' h bid hmem

theorem delete_range_preserves {T : Type} {s : Store T} {i c : Nat} {s' : Store T}
    (h : s.delete_range i c = some s') : blocksPreserved s s' := by
  unfold Store.delete_range at h
  rw [Option.bind_eq_some] at h
  obtain ⟨live, _, h₂⟩ := h
  exact delete_fold_preserves _ s s' h₂

theorem delete_range_marks {T : Type} {s : Store T} {i c : Nat} {s' : Store T}
    (h : s.delete_range i c = some s') :
    ∀ live, s.iterLiveBlocks = some live →
      ∀ bid ∈ ((live.drop i).take c).map (fun x => x.1),
        ∃ b, s'.getBlock bid = some b ∧ b.deleted = true := by
  intro live hl bid hm
  unfold Store.delete_range at h
  rw [hl] at h
  simp only [Option.some_bind] at h
  exact delete_fold_marks _ s s' h bid hm

theorem integrateLink_preserves {T : Type} {s : Store T} {cid : ClientId} {b : Block T}
    {ib : Option BlockId} {s' : Store T} (h : integrateLink s cid b ib = some s') :
    blocksPreserved s s' := by
  unfold integrateLink at h
  cases ib with
  | some p =>
    dsimp only at h
    cases hg : s.getBlock p with
    | none => rw [hg] at h; cases h
    | some to_right =>
      rw [hg] at h
      dsimp only at h
      cases hm : s.modifyBlock p
          (fun br => { br with left := some ⟨cid, b.id⟩ }) with
      | none => rw [hm] at h; cases h
      | some s₁ =>
        rw [hm] at h
        dsimp only at h
        have h₁ : blocksPreserved s s₁ :=
          modifyBlock_preserves' hm (fun b => ⟨rfl, fun hh => hh⟩)
        cases hpl : to_right.left with
        | some tl =>
          rw [hpl] at h
          dsimp only at h
          cases hm₂ : s₁.modifyBlock tl
              (fun bl => { bl with right := some ⟨cid, b.id⟩ }) with
          | none => rw [hm₂] at h; cases h
          | some s₂ =>
            rw [hm₂] at h
            dsimp only at h
            rw [Option.some.injEq] at h
            subst h
            exact blocksPreserved_trans h₁
              (blocksPreserved_trans
                (modifyBlock_preserves' hm₂ (fun b => ⟨rfl, fun hh => hh⟩))
                (pushBlock_preserves s₂ cid _))
        | none =>
          rw [hpl] at h
          dsimp only at h
          rw [Option.some.injEq] at h
          subst h
          exact blocksPreserved_trans h₁
            (blocksPreserved_trans (blocksPreserved_of_data_eq rfl)
              (pushBlock_preserves _ cid _))
  | none =>
    dsimp only at h
    cases he : s.endId with
    | some e =>
      rw [he] at h
      dsimp only at h
      cases hm : s.modifyBlock e
          (fun be => { be with right := some ⟨cid, b.id⟩ }) with
      | none => rw [hm] at h; cases h
      | some s₁ =>
        rw [hm] at h
        dsimp only at h
        rw [Option.some.injEq] at h
        subst h
        exact blocksPreserved_trans
          (modifyBlock_preserves' hm (fun b => ⟨rfl, fun hh => hh⟩))
          (blocksPreserved_trans (blocksPreserved_of_data_eq rfl)
            (pushBlock_preserves _ cid _))
    | none =>
      rw [he] at h
      dsimp only at h
      rw [Option.some.injEq] at h
      subst h
      exact blocksPreserved_trans (blocksPreserved_of_data_eq rfl)
        (pushBlock_preserves _ cid _)

theorem integrateBlock_preserves {T : Type} {s : Store T} {cid : ClientId} {b : Block T}
    {s' : Store T} (h : integrateBlock s cid b = some s') : blocksPreserved s s' := by
  unfold integrateBlock at h
  cases hf : s.find_insertion_point cid b.origin_left b.origin_right with
  | none => rw [hf] at h; cases h
  | some ib =>
    rw [hf] at h
    exact integrateLink_preserves h

theorem integrate_preserves {T : Type} {s : Store T} {cid : ClientId} {bs : List (Block T)}
    {s' : Store T} (h : s.integrate cid bs = some s') : blocksPreserved s s' :=
  foldlM_preserves (fun _ _ _ hx => integrateBlock_preserves hx) bs s s' h

theorem deleteSet_apply_preserves {T : Type} {ds : DeleteSet} {d d' : Document T}
    (h : ds.apply d = some d') : blocksPreserved d.store d'.store := by
  unfold DeleteSet.apply at h
  cases hf : ds.deletes.foldlM
      (fun st (p : ClientId × List (Clock × Nat)) =>
        p.2.foldlM
          (fun st (q : Clock × Nat) =>
            (List.range q.2).foldlM
              (fun st i => Store.modifyBlock st ⟨p.1, q.1 + i⟩ Block.delete) st)
          st)
      d.store with
  | none => rw [hf] at h; cases h
  | some st =>
    rw [hf] at h
    simp only [Option.map_some', Option.some.injEq] at h
    subst h
    refine foldlM_preserves (fun s x s' hx => ?_) _ _ _ hf
    refine foldlM_preserves (fun s q s' hq => ?_) _ _ _ hx
    exact foldlM_preserves
      (fun s i s' hi => modifyBlock_preserves keepsTombstone_delete hi) _ _ _ hq

theorem update_apply_preserves {T : Type} {u : Update T} {d d' : Document T}
    (h : u.apply d = .ok d') : blocksPreserved d.store d'.store := by
  unfold Update.apply at h
  by_cases hdep : u.dependency.any (fun p => decide (clockOf d p.1 < p.2.1))
  · rw [if_pos hdep] at h; cases h
  · rw [if_neg hdep] at h
    cases hf : u.blocks.foldlM
        (fun st (p : ClientId × List (UpdateBlock T)) =>
          Store.integrate st p.1 (p.2.enum.map (fun x => x.2.hydrate x.1)))
        d.store with
    | none => rw [hf] at h; cases h
    | some st =>
      rw [hf] at h
      simp only [ApplyResult.ok.injEq] at h
      subst h
      exact foldlM_preserves (fun s x s' hx => integrate_preserves hx) _ _ _ hf

theorem does_clock_exist_sound {T : Type} {u : Update T} {bid : BlockId}
    (h : u.does_clock_exist (some bid) = true) :
    ∃ r, u.get_version_range bid.client_id = some r ∧ bid.clock ≤ r.2 := by
  unfold Update.does_clock_exist at h
  cases hr : u.get_version_range bid.client_id with
  | none => simp [hr] at h
  | some r =>
    simp only [hr] at h
    refine ⟨r, rfl, ?_⟩
    simpa using h

theorem validateBlocks_sound {T : Type} {u : Update T} :
    ∀ (l : List (UpdateBlock T)), validateBlocks u l = none →
      ∀ b ∈ l, u.does_clock_exist b.origin_left = true ∧
        u.does_clock_exist b.origin_right = true
  | [], _, b, hb => absurd hb (List.not_mem_nil b)
  | x :: rest, h, b, hb => by
    unfold validateBlocks at h
    by_cases h1 : u.does_clock_exist x.origin_left
    · rw [h1] at h
      by_cases h2 : u.does_clock_exist x.origin_right
      · rw [h2] at h
        simp only [Bool.not_true, Bool.false_eq_true, if_false] at h
        rcases List.mem_cons.mp hb with rfl | hmem
        · exact ⟨h1, h2⟩
        · exact validateBlocks_sound rest h b hmem
      · rw [Bool.not_eq_true] at h2
        rw [h2] at h
        simp at h
    · rw [Bool.not_eq_true] at h1
      rw [h1] at h
      simp at h

theorem validateEntries_sound {T : Type} {u : Update T} :
    ∀ (l : List (ClientId × List (UpdateBlock T))), validateEntries u l = none →
      ∀ p ∈ l, validateBlocks u p.2 = none ∧
        ∃ r, u.get_version_range p.1 = some r ∧ r.2 - r.1 = p.2.length
  | [], _, p, hp => absurd hp (List.not_mem_nil p)
  | (client, blocks) :: rest, h, p, hp => by
    unfold validateEntries at h
    cases hv : validateBlocks u blocks with
    | some e => rw [hv] at h; simp at h
    | none =>
      rw [hv] at h
      cases hr : u.get_version_range client with
      | none => simp [hr] at h
      | some r =>
        simp only [hr] at h
        by_cases hsz : r.2 - r.1 ≠ blocks.length
        · rw [if_pos hsz] at h; simp at h
        · rw [if_neg hsz] at h
          rcases List.mem_cons.mp hp with rfl | hmem
          · exact ⟨hv, r, hr, Classical.not_not.mp hsz⟩
          · exact validateEntries_sound rest h p hmem

/-- Characterization of a successful validation, combining the two loop
soundness lemmas above. -/
theorem validate_sound {T : Type} {u : Update T} (h : u.validate = Except.ok ()) :
    ∀ p ∈ u.blocks,
      (∀ b ∈ p.2,
        (∀ bid, b.origin_left = some bid →
          ∃ r, u.get_version_range bid.client_id = some r ∧ bid.clock ≤ r.2) ∧
        (∀ bid, b.origin_right = some bid →
          ∃ r, u.get_version_range bid.client_id = some r ∧ bid.clock ≤ r.2)) ∧
      ∃ r, u.get_version_range p.1 = some r ∧ r.2 - r.1 = p.2.length := by
  intro p hp
  have hve : validateEntries u u.blocks = none := by
    unfold Update.validate at h
    cases hv : validateEntries u u.blocks with
    | none => rfl
    | some e => rw [hv] at h; simp at h
  obtain ⟨hblocks, hr⟩ := validateEntries_sound u.blocks hve p hp
  refine ⟨fun b hb => ?_, hr⟩
  obtain ⟨hl, hrt⟩ := validateBlocks_sound p.2 hblocks b hb
  exact ⟨fun bid hbid => does_clock_exist_sound (hbid ▸ hl),
    fun bid hbid => does_clock_exist_sound (hbid ▸ hrt)⟩

/-- Update::apply returns the dependency error exactly when some
dependency entry's start exceeds the receiver's clock for that client
(an absent ClockVector entry counting as zero); the range end and the
blocks play no role in the decision. -/
theorem apply_err_iff {T : Type} (u : Update T) (d : Document T) :
    u.apply d = .err ↔ ∃ p ∈ u.dependency, clockOf d p.1 < p.2.1 := by
  constructor
  · intro h
    by_cases hc : u.dependency.any (fun p => decide (clockOf d p.1 < p.2.1))
    · simpa [List.any_eq_true] using hc
    · rw [Update.apply, if_neg hc] at h
      split at h <;> cases h
  · intro hex
    have hc : u.dependency.any (fun p => decide (clockOf d p.1 < p.2.1)) := by
      simpa [List.any_eq_true] using hex
    rw [Update.apply, if_pos hc]

theorem readVarint_writeVarint (n : Nat) (h : n < W64) (rest : List Nat) :
    readVarint (writeVarint n ++ rest) = some (n, rest) := by
  unfold W64 at h
  unfold writeVarint
  by_cases h1 : n ≤ 250
  · simp [h1, readVarint]
  · by_cases h2 : n < 65536
    · simp only [if_neg h1, if_pos h2, List.cons_append, List.nil_append]
      simp only [readVarint, Option.some.injEq, Prod.mk.injEq]
      norm_num
      omega
    · by_cases h3 : n < 4294967296
      · simp only [if_neg h1, if_neg h2, if_pos h3, List.cons_append, List.nil_append]
        simp only [readVarint, Option.some.injEq, Prod.mk.injEq]
        norm_num
        omega
      · simp only [if_neg h1, if_neg h2, if_neg h3, List.cons_append, List.nil_append]
        simp only [readVarint, Option.some.injEq, Prod.mk.injEq]
        norm_num
        omega

theorem readCount_write {α : Type} (dec : List Nat → Option (α × List Nat))
    (enc : α → List Nat) :
    ∀ (l : List α), (∀ a ∈ l, ∀ r, dec (enc a ++ r) = some (a, r)) →
      ∀ rest, readCount dec l.length ((l.map enc).flatten ++ rest) = some (l, rest)
  | [], _, rest => by simp [readCount]
  | a :: l, hel, rest => by
    simp only [List.map_cons, List.flatten_cons, List.length_cons, List.append_assoc]
    unfold readCount
    rw [hel a (List.mem_cons_self a l) _]
    simp only [Option.some_bind]
    rw [readCount_write dec enc l (fun a ha r => hel a (List.mem_cons_of_mem _ ha) r) rest]
    rfl

theorem readList_writeList {α : Type} (dec : List Nat → Option (α × List Nat))
    (enc : α → List Nat) (l : List α)
    (hel : ∀ a ∈ l, ∀ r, dec (enc a ++ r) = some (a, r)) (hlen : l.length < W64)
    (rest : List Nat) :
    readList dec (writeList enc l ++ rest) = some (l, rest) := by
  unfold writeList readList
  rw [List.append_assoc, readVarint_writeVarint _ hlen]
  simp only [Option.some_bind]
  exact readCount_write dec enc l hel rest

theorem readBlockId_write (b : BlockId) (h : bidWF b = true) (rest : List Nat) :
    readBlockId (writeBlockId b ++ rest) = some (b, rest) := by
  obtain ⟨h1, h2⟩ := by simpa [bidWF] using h
  unfold writeBlockId readBlockId
  rw [List.append_assoc, readVarint_writeVarint _ h1]
  simp only [Option.some_bind]
  rw [readVarint_writeVarint _ h2]
  rfl

theorem readOption_write {α : Type} (dec : List Nat → Option (α × List Nat))
    (enc : α → List Nat) (o : Option α)
    (hel : ∀ a ∈ o, ∀ r, dec (enc a ++ r) = some (a, r)) (rest : List Nat) :
    readOption dec (writeOption enc o ++ rest) = some (o, rest) := by
  cases o with
  | none => rfl
  | some a =>
    simp only [writeOption, List.cons_append, readOption]
    rw [hel a rfl rest]
    rfl

theorem readContent_write (c : Content Nat) (h : contentWF c = true) (rest : List Nat) :
    readContent (writeContent c ++ rest) = some (c, rest) := by
  cases c with
  | Value v =>
    obtain ⟨h1, h2⟩ := by simpa [contentWF, List.all_eq_true] using h
    simp only [writeContent, List.cons_append, readContent]
    rw [readList_writeList readVarint writeVarint v
      (fun a ha r => readVarint_writeVarint a (h2 a ha) r) h1 rest]
    rfl
  | Deleted n =>
    have h1 : n < W64 := by simpa [contentWF] using h
    simp only [writeContent, List.cons_append, readContent]
    rw [readVarint_writeVarint _ h1]
    rfl

theorem readUpdateBlock_write (b : UpdateBlock Nat) (h : ublockWF b = true)
    (rest : List Nat) : readUpdateBlock (writeUpdateBlock b ++ rest) = some (b, rest) := by
  obtain ⟨⟨h1, h2⟩, h3⟩ := by simpa [ublockWF] using h
  unfold writeUpdateBlock readUpdateBlock
  rw [List.append_assoc, List.append_assoc,
    readOption_write readBlockId writeBlockId b.origin_left
      (fun a ha r => readBlockId_write a (by
        rw [Option.mem_def] at ha
        rw [ha] at h1
        simpa [obidWF] using h1) r)]
  simp only [Option.some_bind]
  rw [readOption_write readBlockId writeBlockId b.origin_right
      (fun a ha r => readBlockId_write a (by
        rw [Option.mem_def] at ha
        rw [ha] at h2
        simpa [obidWF] using h2) r)]
  simp only [Option.some_bind]
  rw [readContent_write b.value h3]
  rfl

theorem readDep_write (p : ClientId × Clock × Clock) (h : depWF p = true)
    (rest : List Nat) : readDep (writeDep p ++ rest) = some (p, rest) := by
  obtain ⟨⟨h1, h2⟩, h3⟩ := by simpa [depWF] using h
  unfold writeDep readDep
  rw [List.append_assoc, List.append_assoc, readVarint_writeVarint _ h1]
  simp only [Option.some_bind]
  rw [readVarint_writeVarint _ h2]
  simp only [Option.some_bind]
  rw [readVarint_writeVarint _ h3]
  rfl

theorem readBlocksEntry_write (p : ClientId × List (UpdateBlock Nat))
    (h : blocksEntryWF p = true) (rest : List Nat) :
    readBlocksEntry (writeBlocksEntry p ++ rest) = some (p, rest) := by
  obtain ⟨⟨h1, h2⟩, h3⟩ := by simpa [blocksEntryWF, List.all_eq_true] using h
  unfold writeBlocksEntry readBlocksEntry
  rw [List.append_assoc, readVarint_writeVarint _ h1]
  simp only [Option.some_bind]
  rw [readList_writeList readUpdateBlock writeUpdateBlock p.2
    (fun a ha r => readUpdateBlock_write a (h3 a ha) r) h2 rest]
  rfl

theorem readRun_write (q : Clock × Nat) (h : runWF q = true) (rest : List Nat) :
    readRun (writeRun q ++ rest) = some (q, rest) := by
  obtain ⟨h1, h2⟩ := by simpa [runWF] using h
  unfold writeRun readRun
  rw [List.append_assoc, readVarint_writeVarint _ h1]
  simp only [Option.some_bind]
  rw [readVarint_writeVarint _ h2]
  rfl

theorem readDelEntry_write (p : ClientId × List (Clock × Nat))
    (h : delEntryWF p = true) (rest : List Nat) :
    readDelEntry (writeDelEntry p ++ rest) = some (p, rest) := by
  unfold delEntryWF at h
  rw [Bool.and_eq_true, Bool.and_eq_true] at h
  obtain ⟨⟨h1, h2⟩, h3⟩ := h
  unfold writeDelEntry readDelEntry
  rw [List.append_assoc, readVarint_writeVarint _ (of_decide_eq_true h1)]
  simp only [Option.some_bind]
  rw [readList_writeList readRun writeRun p.2
    (fun a ha r => readRun_write a (List.all_eq_true.mp h3 a ha) r)
    (of_decide_eq_true h2) rest]
  rfl

theorem decodeUpdate_encodeUpdate (u : Update Nat) (h : updateWF u = true)
    (rest : List Nat) : decodeUpdate (encodeUpdate u ++ rest) = some (u, rest) := by
  unfold updateWF at h
  rw [Bool.and_eq_true, Bool.and_eq_true, Bool.and_eq_true, Bool.and_eq_true,
    Bool.and_eq_true] at h
  obtain ⟨⟨⟨hd1, hd2⟩, hb1, hb2⟩, hs1, hs2⟩ := h
  unfold encodeUpdate decodeUpdate
  rw [List.append_assoc, List.append_assoc,
    readList_writeList readDep writeDep u.dependency
      (fun a ha r => readDep_write a (List.all_eq_true.mp hd2 a ha) r)
      (of_decide_eq_true hd1)]
  simp only [Option.some_bind]
  rw [readList_writeList readBlocksEntry writeBlocksEntry u.blocks
    (fun a ha r => readBlocksEntry_write a (List.all_eq_true.mp hb2 a ha) r)
    (of_decide_eq_true hb1)]
  simp only [Option.some_bind]
  rw [readList_writeList readDelEntry writeDelEntry u.deletes.deletes
    (fun a ha r => readDelEntry_write a (List.all_eq_true.mp hs2 a ha) r)
    (of_decide_eq_true hs1)]
  rfl

/-- C1: the convergence claim is false on this code.  Three concurrent
single-block insertions with identical (empty) origins, applied to two
fresh observer documents in the orders [1,2,3] and [3,1,2] (both causally
consistent, every apply returning Ok), yield the value sequences
[1, 2, 3] and [1, 3, 2]: Store::integrate's placement depends on local
arrival order, not only on origins and replica ids. -/
theorem c1_counterexample :
    valuesAfter [upd1, upd2, upd3] dObs = some [1, 2, 3] ∧
    valuesAfter [upd3, upd1, upd2] dObs = some [1, 3, 2] ∧
    valuesAfter [upd1, upd2, upd3] dObs ≠ valuesAfter [upd3, upd1, upd2] dObs := by
  refine ⟨by decide, by decide, by decide⟩

/-- C1 (amended): convergence does hold for two concurrent single-block
insertions applied in either order — the replica-id tie-break places the
block of the smaller replica first in both arrival orders — but not in
general (see the three-insertion counterexample). -/
theorem c1_two_update_convergence :
    valuesAfter [upd1, upd2] dObs = valuesAfter [upd2, upd1] dObs ∧
    valuesAfter [upd1, upd2] dObs = some [1, 2] := by
  refine ⟨by decide, by decide⟩

/-- C2: evaluation of scenario S1 on the code.  After append("A"),
append("B"), insert(1, "C") on replica 1, the values are
["A", "B", "C"] — not ["A", "C", "B"] as the spec, the claim and the
repo's own `insert_changes` test expect — and the block at clock 2 has
origin_left (1,1) and origin_right None instead of (1,0) and (1,1):
`Store::insert` takes `nth(index)`, the index-th live block, as the left
neighbor, so it inserts after it rather than before it. -/
theorem c2_insert_eval :
    s1Store.bind Store.iterValues = some ["A", "B", "C"] ∧
    s1Store.bind Store.iterValues ≠ some ["A", "C", "B"] ∧
    (s1Store.bind (fun s => s.getBlock ⟨1, 2⟩)).map
      (fun b => (b.origin_left, b.origin_right)) = some (some ⟨1, 1⟩, none) := by
  refine ⟨by decide, by decide, by decide⟩

/-- C3: Update::apply never applies the Update's DeleteSet.  Applying an
update that carries a block for replica 2 and a DeleteSet covering that
block succeeds, yet the integrated block's tombstone is still clear —
although applying the same DeleteSet afterwards would set it. -/
theorem c3_apply_ignores_deletes :
    ((updWithDelete.apply dRecv).doc?.bind
      (fun d => (d.store.getBlock ⟨2, 0⟩).map (fun b => b.deleted))) = some false ∧
    ((updWithDelete.apply dRecv).doc?.bind
      (fun d => (updWithDelete.deletes.apply d).bind
        (fun d2 => (d2.store.getBlock ⟨2, 0⟩).map (fun b => b.deleted)))) = some true := by
  refine ⟨by decide, by decide⟩

/-- C4: applying the same update twice is not idempotent.  The second
apply passes the dependency check (the ClockVector is never advanced),
integrates the same block again — duplicating replica 1's block vector —
and rewires the original block's `right` pointer to its own id, so the
iteration that yielded [1] after the first apply no longer terminates. -/
theorem c4_second_apply_duplicates :
    valuesAfter [upd1] dObs = some [1] ∧
    ((applySeq [upd1, upd1] dObs).doc?).map
      (fun d => (assocGet d.store.data 1).map List.length) = some (some 2) ∧
    ((applySeq [upd1, upd1] dObs).doc?).map
      (fun d => (d.store.getBlock ⟨1, 0⟩).map (fun b => b.right)) =
      some (some (some ⟨1, 0⟩)) ∧
    valuesAfter [upd1, upd1] dObs = none := by
  refine ⟨by decide, by decide, by decide, by decide⟩

/-- C5: Update::apply returns the dependency error exactly when some
dependency entry's start exceeds the receiver's clock for that replica
(with an absent entry treated as 0), and only the start is consulted; in
particular the S5 update with dependency [(3, 2..3)] is rejected by an
empty replica-1 document. -/
theorem c5_missing_dependency :
    (∀ (T : Type) (u : Update T) (d : Document T),
      u.apply d = .err ↔ ∃ p ∈ u.dependency, clockOf d p.1 < p.2.1) ∧
    s5Update.apply dRecv = .err :=
  ⟨fun _ u d => apply_err_iff u d, by decide⟩

/-- C6: a successful Update::apply does not advance the receiver's
ClockVector.  After applying an update carrying replica 2's clock range
0..1, the ClockVector is still empty and the entry for replica 2 is 0,
not at least 1. -/
theorem c6_clock_vector_not_advanced :
    ((updWithDelete.apply dRecv).doc?).map (fun d => d.clients) = some [] ∧
    ((updWithDelete.apply dRecv).doc?).map (fun d => clockOf d 2) = some 0 ∧
    ¬(1 : Nat) ≤ 0 := by
  refine ⟨by decide, by decide, by decide⟩

/-- C7: counterexample to the claimed validation rule.  The update of the
repo's `validate_ok_if_valid_update` test has a block whose origin_left is
(2, 0) while the declared range for replica 2 is 0..0 — the claimed
condition start ≤ clock < end fails (0 < 0 is false) — yet validate
returns Ok: the code only rejects clock > end and never consults start. -/
theorem c7_counterexample :
    uValid.validate = Except.ok () ∧
    uValid.blocks = [(1, [⟨some ⟨2, 0⟩, none, .Value [5]⟩])] ∧
    uValid.get_version_range 2 = some (0, 0) ∧
    ¬((0 : Nat) ≤ 0 ∧ (0 : Nat) < 0) :=
  ⟨rfl, rfl, rfl, by decide⟩

/-- C7 (amended): when validate returns Ok, every set origin names a
replica with a dependency entry and its clock is at most the range's end
(the start bound and the strict end bound are not checked), and every
block list's client has an entry whose range size equals the list length;
an origin naming a replica with no dependency entry produces
UpdateOutsideRange, not ClientDoesNotExist. -/
theorem c7_validate_sound :
    (∀ (T : Type) (u : Update T), u.validate = Except.ok () →
      ∀ p ∈ u.blocks,
        (∀ b ∈ p.2,
          (∀ bid, b.origin_left = some bid →
            ∃ r, u.get_version_range bid.client_id = some r ∧ bid.clock ≤ r.2) ∧
          (∀ bid, b.origin_right = some bid →
            ∃ r, u.get_version_range bid.client_id = some r ∧ bid.clock ≤ r.2)) ∧
        ∃ r, u.get_version_range p.1 = some r ∧ r.2 - r.1 = p.2.length) ∧
    uInvalid.validate = Except.error (.UpdateOutsideRange ⟨1, 0⟩) :=
  ⟨fun _ _ h => validate_sound h, rfl⟩

/-- Witness for C7's amended theorem at the concrete valid update. -/
theorem c7_witness :
    uValid.validate = Except.ok () ∧
    (∃ r, uValid.get_version_range 1 = some r ∧ r.2 - r.1 = 1) := by
  refine ⟨rfl, ?_⟩
  have h := (c7_validate_sound.1 Nat uValid rfl
    (1, [⟨some ⟨2, 0⟩, none, .Value [5]⟩]) (by decide)).2
  simpa using h

/-- C8: round-trip stability of the wire format (modelled from the spec:
the derive-generated encoder of the serialization library is not part of
this repository).  For every Update whose numbers fit in a u64, decoding
its encoding returns the update with no bytes left over, and re-encoding
the decoded value is byte-identical to the original encoding. -/
theorem c8_round_trip (u : Update Nat) (h : updateWF u = true) :
    decodeUpdate (encodeUpdate u) = some (u, []) ∧
    ∀ v rest, decodeUpdate (encodeUpdate u) = some (v, rest) →
      encodeUpdate v = encodeUpdate u := by
  have h1 : decodeUpdate (encodeUpdate u) = some (u, []) := by
    have h2 := decodeUpdate_encodeUpdate u h []
    simpa using h2
  refine ⟨h1, fun v rest hv => ?_⟩
  rw [h1] at hv
  simp only [Option.some.injEq, Prod.mk.injEq] at hv
  obtain ⟨rfl, rfl⟩ := hv
  rfl

/-- Witness for C8 at a concrete update exercising both content kinds, a
multi-byte varint, both Option discriminators and a DeleteSet run. -/
theorem c8_witness :
    updateWF u8 = true ∧ decodeUpdate (encodeUpdate u8) = some (u8, []) :=
  ⟨by decide, (c8_round_trip u8 (by decide)).1⟩

/-- C9: tombstone permanence and length preservation.  delete_range marks
each selected live block deleted while every block of the store keeps its
slot and its length; and each public operation — append, insert,
delete_range, integrate, DeleteSet::apply, Update::apply — preserves every
existing slot, its length field, and never clears a set tombstone. -/
theorem c9_tombstone_permanence :
    (∀ (T : Type) (s : Store T) (i c : Nat) (s' : Store T),
      s.delete_range i c = some s' →
      blocksPreserved s s' ∧
      ∀ live, s.iterLiveBlocks = some live →
        ∀ bid ∈ ((live.drop i).take c).map (fun x => x.1),
          ∃ b, s'.getBlock bid = some b ∧ b.deleted = true) ∧
    (∀ (T : Type) (s : Store T) (v : T) (s' : Store T),
      s.append v = some s' → blocksPreserved s s') ∧
    (∀ (T : Type) (s : Store T) (i : Nat) (v : T) (s' : Store T),
      s.insert i v = some s' → blocksPreserved s s') ∧
    (∀ (T : Type) (s : Store T) (cid : ClientId) (bs : List (Block T)) (s' : Store T),
      s.integrate cid bs = some s' → blocksPreserved s s') ∧
    (∀ (T : Type) (ds : DeleteSet) (d d' : Document T),
      ds.apply d = some d' → blocksPreserved d.store d'.store) ∧
    (∀ (T : Type) (u : Update T) (d d' : Document T),
      u.apply d = .ok d' → blocksPreserved d.store d'.store) :=
  ⟨fun _ _ _ _ _ h => ⟨delete_range_preserves h, delete_range_marks h⟩,
    fun _ _ _ _ h => append_preserves h,
    fun _ _ _ _ _ h => insert_preserves h,
    fun _ _ _ _ _ h => integrate_preserves h,
    fun _ _ _ _ h => deleteSet_apply_preserves h,
    fun _ _ _ _ h => update_apply_preserves h⟩

/-- Witness for C9 at the repo's `test_deletion` scenario: deleting two
blocks from position 1 of a four-block store marks block (1,1) deleted
while its slot and length survive. -/
theorem c9_witness :
    store4.delete_range 1 2 = some store4del ∧
    (∃ b, store4del.getBlock ⟨1, 1⟩ = some b ∧ b.deleted = true) ∧
    (∃ b', blockAt store4del 1 1 = some b' ∧ b'.length = blk11.length ∧
      (blk11.deleted = true → b'.deleted = true)) := by
  have h : store4.delete_range 1 2 = some store4del := by decide
  refine ⟨h, ?_, ?_⟩
  · exact (c9_tombstone_permanence.1 Nat store4 1 2 store4del h).2 live4 (by decide)
      ⟨1, 1⟩ (by decide)
  · exact (c9_tombstone_permanence.1 Nat store4 1 2 store4del h).1 1 1 blk11 (by decide)

/-- C10: counterexample to the claim as stated.  An update whose block's
origin_left names replica 2 — absent from both the dependency vector and
the receiving store — passes the dependency-start check, yet apply does
not return Ok: the integration scan indexes the missing block and
panics. -/
theorem c10_counterexample :
    uPanic.dependency.all (fun p => decide (p.2.1 ≤ clockOf dRecv p.1)) = true ∧
    uPanic.apply dRecv = .panic ∧
    (uPanic.apply dRecv).doc? = none := by
  refine ⟨by decide, by decide, by decide⟩

/-- C10 (amended): Update::apply performs no structural validation —
an update that validate rejects (its origins name a replica with no
dependency entry) is still applied successfully and its block integrated,
provided the referenced blocks exist in the receiving store; only when a
referenced origin block is absent does integration panic instead of
returning Ok. -/
theorem c10_apply_skips_validation :
    uInvalid.validate = Except.error (.UpdateOutsideRange ⟨1, 0⟩) ∧
    (uInvalid.apply dTwo).doc?.bind (fun d => d.store.iterValues) =
      some [10, 12, 11] :=
  ⟨rfl, by decide⟩

end Yata
